import Mathlib

/-!
Verification development for the MorphFun audio-morphing core.

This file gives a shallow embedding of the parts of the repository that the
checked properties are about:

* `AudioPlayer` (Source/audio/audio_player.py): the track bank, gain-based
  morphing (`play_all_sounds`, `_process_message`, the `start_morphing`
  consumption loop, `stop_all_sounds`, `clear_sounds`);
* `Recorder` (Sourcee/audio/recorder.py): bounded-duration capture and the
  trim performed by `stop_recording`;
* `QueueManager` / `EventManager` / `ThreadManager` (Source/thread_manager.py);
* `Controller.clear` (Source/controller.py).

Python dictionaries are modelled as insertion-ordered association lists,
Python list indexing (including negative wrap-around and `IndexError`) by
`pyIndex`, `int()` truncation by `pyInt`, slice truncation by `pySliceTo`,
and `sorted` on strings by insertion sort under code-point lexicographic
order (`pyStrLe`).  Exceptions are modelled with `Option` or an explicit
`raised` flag.  Threads are modelled as `Worker` records in a spawn-order
world list; `join()` on a worker whose stop event has been set is modelled
as the worker terminating (its loop polls the stop event with a bounded
timeout), i.e. `alive := false`.
-/

/-- Python `d.get(k)` on an insertion-ordered association list: the value at
the first matching key (`none` when the key is absent). -/
def dictGet {κ α : Type} [DecidableEq κ] : List (κ × α) → κ → Option α
  | [], _ => none
  | (k0, v0) :: d, k => if k = k0 then some v0 else dictGet d k

/-- Python `d[k] = v`: overwrite in place when the key is present (keeping
insertion order), otherwise append at the end. -/
def dictSet {κ α : Type} [DecidableEq κ] : List (κ × α) → κ → α → List (κ × α)
  | [], k, v => [(k, v)]
  | (k0, v0) :: d, k, v => if k = k0 then (k0, v) :: d else (k0, v0) :: dictSet d k v

/-- Python `d.pop(k, None)` / `del d[k]`: drop the first entry with the key. -/
def dictDel {κ α : Type} [DecidableEq κ] : List (κ × α) → κ → List (κ × α)
  | [], _ => []
  | (k0, v0) :: d, k => if k = k0 then d else (k0, v0) :: dictDel d k

/-- Python list indexing `l[i]`: non-negative indices from the front,
negative indices wrap from the end, anything else raises `IndexError`
(modelled as `none`). -/
def pyIndex {α : Type} (l : List α) (i : Int) : Option α :=
  if 0 ≤ i then l.get? i.toNat
  else if 0 ≤ i + l.length then l.get? (i + l.length).toNat
  else none

/-- Python `int()` on a rational: truncation toward zero. -/
def pyInt (q : ℚ) : Int :=
  if 0 ≤ q then ⌊q⌋ else ⌈q⌉

/-- Python slice `l[:k]`: a negative bound counts from the end. -/
def pySliceTo {α : Type} (l : List α) (k : Int) : List α :=
  if 0 ≤ k then l.take k.toNat else l.take (l.length + k).toNat

/-- Code-point lexicographic comparison of character lists, as Python
compares strings. -/
def charsLe : List Char → List Char → Bool
  | [], _ => true
  | _ :: _, [] => false
  | a :: as, b :: bs =>
    if a.toNat < b.toNat then true
    else if a.toNat = b.toNat then charsLe as bs
    else false

/-- Python `<=` on strings. -/
def pyStrLe (a b : String) : Bool :=
  charsLe a.data b.data

/-- The ordering relation behind Python `sorted` on strings. -/
def pyStrLeRel (a b : String) : Prop :=
  pyStrLe a b = true

instance : DecidableRel pyStrLeRel :=
  fun a b => inferInstanceAs (Decidable (pyStrLe a b = true))

/-- Python `sorted` on a list of strings. -/
def pySorted (l : List String) : List String :=
  List.insertionSort pyStrLeRel l

/-- A pygame `Sound` object: its gain (`set_volume`), whether `play` has been
called on it and with how many loops. -/
structure Sound where
  volume : ℚ
  playing : Bool
  loops : Int
deriving DecidableEq, Repr

/-- `AudioPlayer` state (Source/audio/audio_player.py): `sounds` is the dict
of loaded pygame sounds keyed by file name, `sound_to_mute` the key of the
sound the next switch will mute.  In the source `sound_to_mute` is
initialised to the integer `0`, which never matches a string dict key, so
`dict.get` on it yields `None`; `none` models that initial value. -/
structure AudioPlayer where
  sounds : List (String × Sound)
  sound_to_mute : Option String
deriving DecidableEq, Repr

/-- Update the volume of the sound object stored under a key (the dict holds
object references, so mutating the object is visible through the dict). -/
def updVol (sounds : List (String × Sound)) (k : String) (v : ℚ) : List (String × Sound) :=
  sounds.map fun q => if q.1 = k then (q.1, { q.2 with volume := v }) else q

/-- `sound.set_volume(v)` on the dict entry with the given key. -/
def AudioPlayer.set_volume (p : AudioPlayer) (k : String) (v : ℚ) : AudioPlayer :=
  { p with sounds := updVol p.sounds k v }

/-- `AudioPlayer.play_all_sounds` (audio_player.py lines 89-105): play every
loaded sound with the given loop count at volume 0, then set the first
sound's volume to 1 and record the first key as `sound_to_mute`. -/
def AudioPlayer.play_all_sounds (p : AudioPlayer) (loops : Int) : AudioPlayer :=
  let played := p.sounds.map fun q => (q.1, { q.2 with playing := true, loops := loops, volume := (0 : ℚ) })
  match played with
  | [] => { p with sounds := [] }
  | (k0, s0) :: rest => { sounds := (k0, { s0 with volume := (1 : ℚ) }) :: rest, sound_to_mute := some k0 }

/-- `AudioPlayer.stop_all_sounds`: `pygame.mixer.stop()` halts every channel;
gains are untouched. -/
def AudioPlayer.stop_all_sounds (p : AudioPlayer) : AudioPlayer :=
  { p with sounds := p.sounds.map fun q => (q.1, { q.2 with playing := false }) }

/-- `AudioPlayer.clear_sounds`: stop everything, then `self.sounds.clear()`. -/
def AudioPlayer.clear_sounds (p : AudioPlayer) : AudioPlayer :=
  let p1 := p.stop_all_sounds
  { p1 with sounds := [] }

/-- One observable gain change: `set_volume` on a named track. -/
inductive VolEvent where
  | setVol (track : String) (gain : ℚ)
deriving DecidableEq, Repr

/-- Result of `_process_message`: the ordered trace of `set_volume` calls it
performed, the player state reached, and whether an exception escaped. -/
structure ProcResult where
  trace : List VolEvent
  state : AudioPlayer
  raised : Bool
deriving DecidableEq, Repr

/-- The mute step of `_process_message`: `self.sounds.get(self.sound_to_mute)`
and, when a sound is found, `set_volume(0.0)` on it. -/
def AudioPlayer.muteCurrent (p : AudioPlayer) : List VolEvent × AudioPlayer :=
  match p.sound_to_mute with
  | none => ([], p)
  | some k =>
    match dictGet p.sounds k with
    | none => ([], p)
    | some _ => ([VolEvent.setVol k 0], p.set_volume k 0)

/-- The unmute step of `_process_message`: `set_volume(1.0)` on the sound
found under the selected key (a missing sound is a silent no-op). -/
def AudioPlayer.unmuteNew (p : AudioPlayer) (newName : String) : List VolEvent × AudioPlayer :=
  match dictGet p.sounds newName with
  | none => ([], p)
  | some _ => ([VolEvent.setVol newName 1], p.set_volume newName 1)

/-- `AudioPlayer._process_message` (audio_player.py lines 177-195): mute the
sound at key `sound_to_mute` when that key is present, then index the sorted
key list with the message (Python indexing: negative wrap-around, and
`IndexError` out of range, modelled by `raised := true`), unmute the selected
sound, and record it as the next sound to mute. -/
def AudioPlayer.process_message (p : AudioPlayer) (message : Int) : ProcResult :=
  let m := p.muteCurrent
  match pyIndex (pySorted (m.2.sounds.map Prod.fst)) message with
  | none => ⟨m.1, m.2, true⟩
  | some newName =>
    let u := m.2.unmuteNew newName
    ⟨m.1 ++ u.1, { u.2 with sound_to_mute := some newName }, false⟩

/-- Outcome of one iteration of the `start_morphing` consumption loop. -/
inductive StepResult where
  | continued (p : AudioPlayer)
  | stopped (p : AudioPlayer)
  | crashed (r : ProcResult)
deriving DecidableEq, Repr

/-- The body of the `start_morphing` while-loop (audio_player.py lines
162-175) for one received message: `4` is skipped, any message other than
`-1` goes to `_process_message` (an escaping exception crashes the loop),
and `-1` breaks out of the loop, after which `stop_all_sounds` runs. -/
def AudioPlayer.morphStep (p : AudioPlayer) (message : Int) : StepResult :=
  if message = 4 then StepResult.continued p
  else if message ≠ -1 then
    let r := p.process_message message
    if r.raised then StepResult.crashed r else StepResult.continued r.state
  else StepResult.stopped p.stop_all_sounds

/-- Run the `start_morphing` loop over a finite list of received messages;
stops early on the `-1` sentinel or on a crash. -/
def AudioPlayer.runMessages (p : AudioPlayer) : List Int → AudioPlayer
  | [] => p
  | m :: ms =>
    match p.morphStep m with
    | StepResult.continued p1 => p1.runMessages ms
    | StepResult.stopped p1 => p1
    | StepResult.crashed r => r.state

/-- `Recorder.RECORDING_SR` (Sourcee/audio/recorder.py). -/
def RECORDING_SR : ℕ := 44100

/-- `Recorder` state: the maximum duration and the recorded buffer
(`np.zeros((RECORDING_SR * max_duration, 1))`, modelled as a mono sample
list). -/
structure Recorder where
  max_duration : ℕ
  recorded_audio : List ℚ
deriving DecidableEq, Repr

/-- `Recorder.__init__`: pre-allocate `RECORDING_SR * max_duration` zero
samples. -/
def Recorder.init (max_duration : ℕ) : Recorder :=
  ⟨max_duration, List.replicate (RECORDING_SR * max_duration) 0⟩

/-- `Recorder.stop_recording` (recorder.py lines 66-77): compute the elapsed
time, cap it at `max_duration`, convert to a sample count with `int()`, and
truncate the buffer with a slice. -/
def Recorder.stop_recording (r : Recorder) (start_time now : ℚ) : Recorder :=
  let total_time := now - start_time
  let samples_to_keep := pyInt (min total_time (r.max_duration : ℚ) * (RECORDING_SR : ℚ))
  { r with recorded_audio := pySliceTo r.recorded_audio samples_to_keep }

/-- A value carried on an inter-thread queue: the morphing queue carries
integers (classifier output), the GUI command queue carries strings. -/
inductive Msg where
  | intMsg (n : Int)
  | strMsg (s : String)
deriving DecidableEq, Repr

/-- `QueueManager` (thread_manager.py lines 18-68): named FIFO queues. -/
structure QueueManager where
  queues : List (String × List Msg)
deriving DecidableEq, Repr

/-- `QueueManager.create_queue`: create a fresh empty queue only when the
name is not yet registered. -/
def QueueManager.create_queue (qm : QueueManager) (name : String) : QueueManager :=
  match dictGet qm.queues name with
  | some _ => qm
  | none => { queues := dictSet qm.queues name [] }

/-- `QueueManager.get_queue` (thread_manager.py lines 49-59):
`self.queues.get(name)`. -/
def QueueManager.get_queue (qm : QueueManager) (name : String) : Option (List Msg) :=
  dictGet qm.queues name

/-- `QueueManager.delete_queue`: `self.queues.pop(name, None)`. -/
def QueueManager.delete_queue (qm : QueueManager) (name : String) : QueueManager :=
  { queues := dictDel qm.queues name }

/-- `EventManager` (thread_manager.py lines 71-158): named boolean events
(`threading.Event` flags). -/
structure EventManager where
  events : List (String × Bool)
deriving DecidableEq, Repr

/-- `EventManager.create_event`: register a cleared event only when absent. -/
def EventManager.create_event (em : EventManager) (event_name : String) : EventManager :=
  match dictGet em.events event_name with
  | some _ => em
  | none => { events := dictSet em.events event_name false }

/-- `EventManager.set_event` (lines 105-112):
`self.events.get(event_name, threading.Event()).set()` — when the name is
registered its event is set; when absent a fresh `Event` is created, set,
and immediately discarded, leaving the registry unchanged. -/
def EventManager.set_event (em : EventManager) (event_name : String) : EventManager :=
  match dictGet em.events event_name with
  | some _ => { events := dictSet em.events event_name true }
  | none => em

/-- `EventManager.clear_event` (lines 114-121): same default-object pattern
with `.clear()`. -/
def EventManager.clear_event (em : EventManager) (event_name : String) : EventManager :=
  match dictGet em.events event_name with
  | some _ => { events := dictSet em.events event_name false }
  | none => em

/-- `EventManager.is_event_set` (lines 123-133): an absent name is looked up
through a fresh (unset) default `Event`, so it reads `false`. -/
def EventManager.is_event_set (em : EventManager) (event_name : String) : Bool :=
  (dictGet em.events event_name).getD false

/-- A spawned thread instance: its identity and whether it is still alive. -/
structure Worker where
  wid : ℕ
  alive : Bool
deriving DecidableEq, Repr

/-- `ThreadManager` (thread_manager.py lines 161-362).  `workers` is the
world of every thread instance ever spawned (a thread object outlives the
registry entry that points to it); `threads` and `stop_events` are the
name-keyed registries; `events_world` holds the anonymous stop-event
instances by id. -/
structure ThreadManager where
  workers : List Worker
  threads : List (String × ℕ)
  stop_events : List (String × ℕ)
  events_world : List (ℕ × Bool)
  queue_manager : QueueManager
  event_manager : EventManager
  nextWid : ℕ
  nextEid : ℕ
deriving DecidableEq, Repr

/-- Look a worker up by id in the spawn world. -/
def findWorker (ws : List Worker) (wid : ℕ) : Option Worker :=
  ws.find? fun w => w.wid == wid

/-- `ThreadManager.start_thread` (lines 207-234): unconditionally create a
fresh stop event, overwrite `stop_events[name]`, spawn and start a new
thread, and overwrite `threads[name]`.  There is no check on whether the
name already maps to a live worker. -/
def ThreadManager.start_thread (tm : ThreadManager) (name : String) : ThreadManager :=
  let eid := tm.nextEid
  let wid := tm.nextWid
  { tm with
    events_world := tm.events_world ++ [(eid, false)],
    stop_events := dictSet tm.stop_events name eid,
    workers := tm.workers ++ [⟨wid, true⟩],
    threads := dictSet tm.threads name wid,
    nextWid := wid + 1,
    nextEid := eid + 1 }

/-- `ThreadManager.is_thread_active` (lines 262-272):
`thread_name in self.threads and self.threads[thread_name].is_alive()`. -/
def ThreadManager.is_thread_active (tm : ThreadManager) (name : String) : Bool :=
  match dictGet tm.threads name with
  | some wid =>
    match findWorker tm.workers wid with
    | some w => w.alive
    | none => false
  | none => false

/-- `event.set()` on the anonymous stop-event instance with the given id. -/
def setEventWorld (evs : List (ℕ × Bool)) (eid : ℕ) : List (ℕ × Bool) :=
  evs.map fun q => if q.1 = eid then (q.1, true) else q

/-- `thread.join()` on the worker with the given id: the worker's loop
observes its stop event within its bounded poll and terminates. -/
def killWorker (ws : List Worker) (wid : ℕ) : List Worker :=
  ws.map fun w => if w.wid = wid then { w with alive := false } else w

/-- `ThreadManager.stop_thread` (lines 236-260): a missing name is a logged
no-op; otherwise set the thread's stop event (`self.stop_events[thread_name]`
raises `KeyError`, modelled as `none`, when the stop-event registry lacks the
name), `join()` the worker — it terminates because its loop polls the stop
event with a bounded timeout — and delete both registry entries. -/
def ThreadManager.stop_thread (tm : ThreadManager) (name : String) : Option ThreadManager :=
  match dictGet tm.threads name with
  | none => some tm
  | some wid =>
    match dictGet tm.stop_events name with
    | none => none
    | some eid =>
      some { tm with
        events_world := setEventWorld tm.events_world eid,
        workers := killWorker tm.workers wid,
        threads := dictDel tm.threads name,
        stop_events := dictDel tm.stop_events name }

/-- `ThreadManager.create_queue` (delegates to the queue manager). -/
def ThreadManager.create_queue (tm : ThreadManager) (queue_name : String) : ThreadManager :=
  { tm with queue_manager := tm.queue_manager.create_queue queue_name }

/-- `ThreadManager.get_queue` (delegates to the queue manager). -/
def ThreadManager.get_queue (tm : ThreadManager) (queue_name : String) : Option (List Msg) :=
  tm.queue_manager.get_queue queue_name

/-- `ThreadManager.enqueue_message` (lines 298-308): look the queue up; when
found, `put` the message at the back; when the lookup yields `None` the
message is silently dropped and nothing changes. -/
def ThreadManager.enqueue_message (tm : ThreadManager) (queue_name : String) (message : Msg) :
    ThreadManager :=
  match tm.get_queue queue_name with
  | some q =>
    { tm with queue_manager := { queues := dictSet tm.queue_manager.queues queue_name (q ++ [message]) } }
  | none => tm

/-- `ThreadManager.dequeue_message` (lines 310-326): a registered queue pops
its front message (`None` on `Empty` after the timeout); an unregistered
name falls through and returns `None`. -/
def ThreadManager.dequeue_message (tm : ThreadManager) (queue_name : String) :
    ThreadManager × Option Msg :=
  match tm.get_queue queue_name with
  | some q =>
    match q with
    | [] => (tm, none)
    | m :: rest =>
      ({ tm with queue_manager := { queues := dictSet tm.queue_manager.queues queue_name rest } },
        some m)
  | none => (tm, none)

/-- `ThreadManager.set_event` (delegates to the event manager). -/
def ThreadManager.set_event (tm : ThreadManager) (event_name : String) : ThreadManager :=
  { tm with event_manager := tm.event_manager.set_event event_name }

/-- `ThreadManager.clear_event` (delegates to the event manager). -/
def ThreadManager.clear_event (tm : ThreadManager) (event_name : String) : ThreadManager :=
  { tm with event_manager := tm.event_manager.clear_event event_name }

/-- `ThreadManager.is_event_set` (delegates to the event manager). -/
def ThreadManager.is_event_set (tm : ThreadManager) (event_name : String) : Bool :=
  tm.event_manager.is_event_set event_name

/-- The controller state relevant to `clear`: the thread manager and the
audio player owned through the audio manager. -/
structure Controller where
  thread_manager : ThreadManager
  player : AudioPlayer
deriving DecidableEq, Repr

/-- One primitive performed during teardown, in program order. -/
inductive ClearAction where
  | releaseBank
  | stopJoin (name : String)
deriving DecidableEq, Repr

/-- `Controller.stop_thread` (controller.py lines 145-156): stop the named
worker only when it is active; any exception from the thread manager is
caught and logged (state unchanged, since `stop_events[name]` is read before
any mutation).  Also returns the teardown actions actually performed. -/
def Controller.stop_thread (c : Controller) (name : String) : Controller × List ClearAction :=
  if c.thread_manager.is_thread_active name then
    match c.thread_manager.stop_thread name with
    | some tm1 => ({ c with thread_manager := tm1 }, [ClearAction.stopJoin name])
    | none => (c, [])
  else (c, [])

/-- `Controller.clear` (controller.py lines 158-162): release the track bank
(`audio_manager.clear()` → `audio_player.clear_sounds()`), then stop the
pose-classification worker, then the audio-morphing worker.  Returns the
final state and the ordered trace of performed teardown actions. -/
def Controller.clear (c : Controller) : Controller × List ClearAction :=
  let c1 := { c with player := c.player.clear_sounds }
  let r2 := c1.stop_thread "pose_classification_thread"
  let r3 := r2.1.stop_thread "audio_morphing"
  (r3.1, ClearAction.releaseBank :: (r2.2 ++ r3.2))

/-- Is the action a worker stop-and-join? -/
def ClearAction.isStopJoin : ClearAction → Bool
  | ClearAction.releaseBank => false
  | ClearAction.stopJoin _ => true

/-- Does a worker stop-and-join appear after the bank release in a teardown
trace?  `true` means no stop follows any release. -/
def noStopAfterRelease : List ClearAction → Bool
  | [] => true
  | ClearAction.releaseBank :: rest => rest.all fun a => !a.isStopJoin
  | ClearAction.stopJoin _ :: rest => noStopAfterRelease rest

/-! ### Association-list and Python-semantics lemmas -/

theorem dictGet_dictSet_self {κ α : Type} [DecidableEq κ] (d : List (κ × α)) (k : κ) (v : α) :
    dictGet (dictSet d k v) k = some v := by
  induction d with
  | nil => simp [dictGet, dictSet]
  | cons hd tl ih =>
    obtain ⟨k0, v0⟩ := hd
    by_cases h : k = k0
    · simp [dictSet, dictGet, h]
    · simp [dictSet, dictGet, h, ih]

theorem dictGet_eq_none_iff {κ α : Type} [DecidableEq κ] {d : List (κ × α)} {k : κ} :
    dictGet d k = none ↔ k ∉ d.map Prod.fst := by
  induction d with
  | nil => simp [dictGet]
  | cons hd tl ih =>
    obtain ⟨k0, v0⟩ := hd
    by_cases h : k = k0
    · simp [dictGet, h]
    · simp [dictGet, h, ih]

theorem dictGet_mem {κ α : Type} [DecidableEq κ] {d : List (κ × α)} {k : κ} {v : α}
    (h : dictGet d k = some v) : (k, v) ∈ d := by
  induction d with
  | nil => simp [dictGet] at h
  | cons hd tl ih =>
    obtain ⟨k0, v0⟩ := hd
    by_cases hk : k = k0
    · subst hk
      simp [dictGet] at h
      simp [h]
    · simp [dictGet, hk] at h
      exact List.mem_cons_of_mem _ (ih h)

theorem dictGet_of_mem_nodup {κ α : Type} [DecidableEq κ] {d : List (κ × α)} {q : κ × α}
    (hnd : (d.map Prod.fst).Nodup) (hq : q ∈ d) : dictGet d q.1 = some q.2 := by
  induction d with
  | nil => simp at hq
  | cons hd tl ih =>
    obtain ⟨k0, v0⟩ := hd
    simp only [List.map_cons, List.nodup_cons] at hnd
    rcases List.mem_cons.1 hq with h | h
    · subst h
      simp [dictGet]
    · have hne : q.1 ≠ k0 := by
        intro he
        exact hnd.1 (he ▸ List.mem_map_of_mem Prod.fst h)
      simp [dictGet, hne]
      exact ih hnd.2 h

theorem dictGet_dictDel_ne {κ α : Type} [DecidableEq κ] (d : List (κ × α)) {k k' : κ}
    (h : k ≠ k') : dictGet (dictDel d k') k = dictGet d k := by
  induction d with
  | nil => simp [dictDel]
  | cons hd tl ih =>
    obtain ⟨k0, v0⟩ := hd
    by_cases h0 : k' = k0
    · subst h0
      simp [dictDel, dictGet, h]
    · by_cases h1 : k = k0
      · simp [dictDel, dictGet, h0, h1]
      · simp [dictDel, dictGet, h0, h1, ih]

theorem dictGet_dictDel_self_of_nodup {κ α : Type} [DecidableEq κ] {d : List (κ × α)} {k : κ}
    (hnd : (d.map Prod.fst).Nodup) : dictGet (dictDel d k) k = none := by
  induction d with
  | nil => simp [dictDel, dictGet]
  | cons hd tl ih =>
    obtain ⟨k0, v0⟩ := hd
    simp only [List.map_cons, List.nodup_cons] at hnd
    by_cases h0 : k = k0
    · subst h0
      simp [dictDel]
      exact dictGet_eq_none_iff.2 hnd.1
    · simp [dictDel, dictGet, h0, Ne.symm h0]
      exact ih hnd.2

theorem pyIndex_of_nonneg {α : Type} {l : List α} {i : Int} (h : 0 ≤ i) :
    pyIndex l i = l.get? i.toNat := by
  simp [pyIndex, h]

theorem pyIndex_mem {α : Type} {l : List α} {i : Int} {a : α}
    (h : pyIndex l i = some a) : a ∈ l := by
  unfold pyIndex at h
  split at h
  · exact List.get?_mem h
  · split at h
    · exact List.get?_mem h
    · simp at h

theorem pyIndex_none_of_length_le {α : Type} {l : List α} {i : Int}
    (h : (l.length : Int) ≤ i) : pyIndex l i = none := by
  have h0 : 0 ≤ i := le_trans (by positivity) h
  rw [pyIndex_of_nonneg h0, List.get?_eq_none]
  omega

theorem pyIndex_neg {α : Type} {l : List α} {i : Int} (hneg : i < 0)
    (hge : 0 ≤ i + l.length) : pyIndex l i = l.get? (i + l.length).toNat := by
  rw [pyIndex, if_neg (by omega), if_pos hge]

theorem pyIndex_none_of_add_neg {α : Type} {l : List α} {i : Int}
    (h : i + (l.length : Int) < 0) : pyIndex l i = none := by
  have hneg : ¬ (0 ≤ i) := by
    have : (0 : Int) ≤ l.length := by positivity
    omega
  rw [pyIndex, if_neg hneg, if_neg (by omega)]

theorem pySorted_perm (l : List String) : (pySorted l).Perm l :=
  List.perm_insertionSort pyStrLeRel l

theorem pySorted_length (l : List String) : (pySorted l).length = l.length :=
  (pySorted_perm l).length_eq

theorem mem_pySorted {l : List String} {a : String} : a ∈ pySorted l ↔ a ∈ l :=
  (pySorted_perm l).mem_iff

theorem updVol_keys (l : List (String × Sound)) (k : String) (v : ℚ) :
    (updVol l k v).map Prod.fst = l.map Prod.fst := by
  rw [updVol, List.map_map]
  apply List.map_congr_left
  intro q _
  by_cases h : q.1 = k <;> simp [h]

theorem dictGet_updVol (l : List (String × Sound)) (k : String) (v : ℚ) (k' : String) :
    dictGet (updVol l k v) k' =
      if k' = k then (dictGet l k).map (fun s => { s with volume := v })
      else dictGet l k' := by
  induction l with
  | nil => by_cases h : k' = k <;> simp [updVol, dictGet, h]
  | cons hd tl ih =>
    obtain ⟨k0, s0⟩ := hd
    show dictGet ((if k0 = k then (k0, { s0 with volume := v }) else (k0, s0)) :: updVol tl k v) k' = _
    by_cases h2 : k0 = k
    · rw [if_pos h2]
      by_cases h1 : k' = k0
      · have h3 : k' = k := h1.trans h2
        rw [show dictGet ((k0, { s0 with volume := v }) :: updVol tl k v) k'
              = if k' = k0 then some { s0 with volume := v } else dictGet (updVol tl k v) k' from rfl]
        rw [if_pos h1, if_pos h3,
          show dictGet ((k0, s0) :: tl) k = if k = k0 then some s0 else dictGet tl k from rfl,
          if_pos h2.symm]
        rfl
      · have h3 : ¬ k' = k := fun hh => h1 (hh.trans h2.symm)
        rw [show dictGet ((k0, { s0 with volume := v }) :: updVol tl k v) k'
              = if k' = k0 then some { s0 with volume := v } else dictGet (updVol tl k v) k' from rfl]
        rw [if_neg h1, ih, if_neg h3, if_neg h3,
          show dictGet ((k0, s0) :: tl) k' = if k' = k0 then some s0 else dictGet tl k' from rfl,
          if_neg h1]
    · rw [if_neg h2]
      rw [show dictGet ((k0, s0) :: updVol tl k v) k'
            = if k' = k0 then some s0 else dictGet (updVol tl k v) k' from rfl]
      by_cases h1 : k' = k0
      · have h3 : ¬ k' = k := fun hh => h2 (h1.symm.trans hh)
        rw [if_pos h1, if_neg h3,
          show dictGet ((k0, s0) :: tl) k' = if k' = k0 then some s0 else dictGet tl k' from rfl,
          if_pos h1]
      · rw [if_neg h1, ih]
        by_cases h3 : k' = k
        · rw [if_pos h3, if_pos h3,
            show dictGet ((k0, s0) :: tl) k = if k = k0 then some s0 else dictGet tl k from rfl,
            if_neg (fun hh => h2 hh.symm)]
        · rw [if_neg h3, if_neg h3,
            show dictGet ((k0, s0) :: tl) k' = if k' = k0 then some s0 else dictGet tl k' from rfl,
            if_neg h1]

theorem muteCurrent_keys (p : AudioPlayer) :
    p.muteCurrent.2.sounds.map Prod.fst = p.sounds.map Prod.fst := by
  unfold AudioPlayer.muteCurrent
  cases hs : p.sound_to_mute with
  | none => rfl
  | some k =>
    cases hg : dictGet p.sounds k with
    | none => simp [hg]
    | some s => simp [hg, AudioPlayer.set_volume, updVol_keys]

theorem muteCurrent_of_found {p : AudioPlayer} {k : String} {s : Sound}
    (hstm : p.sound_to_mute = some k) (hget : dictGet p.sounds k = some s) :
    p.muteCurrent = ([VolEvent.setVol k 0], p.set_volume k 0) := by
  unfold AudioPlayer.muteCurrent
  simp [hstm, hget]

/-- The morph-engine state invariant: track keys are distinct, the recorded
`sound_to_mute` key is loaded with gain 1, and every other track has gain 0. -/
def audibleInv (p : AudioPlayer) : Prop :=
  (p.sounds.map Prod.fst).Nodup ∧
  ∃ k, p.sound_to_mute = some k ∧
    (∃ s, dictGet p.sounds k = some s ∧ s.volume = 1) ∧
    ∀ q ∈ p.sounds, q.1 ≠ k → q.2.volume = 0

/-- Exactly one loaded track has gain 1 and every other has gain 0. -/
def exclusiveAudible (p : AudioPlayer) : Prop :=
  p.sounds.countP (fun q => decide (q.2.volume = 1)) = 1 ∧
  ∀ q ∈ p.sounds, q.2.volume = 1 ∨ q.2.volume = 0

theorem countP_vol_one {l : List (String × Sound)} {k : String} {s : Sound}
    (hnd : (l.map Prod.fst).Nodup) (hget : dictGet l k = some s) (hvol : s.volume = 1)
    (hoth : ∀ q ∈ l, q.1 ≠ k → q.2.volume = 0) :
    l.countP (fun q => decide (q.2.volume = 1)) = 1 := by
  induction l with
  | nil => simp [dictGet] at hget
  | cons hd tl ih =>
    obtain ⟨k0, s0⟩ := hd
    simp only [List.map_cons, List.nodup_cons] at hnd
    rw [show dictGet ((k0, s0) :: tl) k = if k = k0 then some s0 else dictGet tl k from rfl] at hget
    by_cases hk : k = k0
    · rw [if_pos hk] at hget
      have hs0 : s0 = s := by injection hget
      have htl : tl.countP (fun q => decide (q.2.volume = 1)) = 0 := by
        rw [List.countP_eq_zero]
        intro q hq
        have hqk : q.1 ≠ k := by
          intro he
          exact hnd.1 (hk ▸ he ▸ List.mem_map_of_mem Prod.fst hq)
        have h0 := hoth q (List.mem_cons_of_mem _ hq) hqk
        simp [h0]
      rw [List.countP_cons, htl]
      simp [hs0, hvol]
    · rw [if_neg hk] at hget
      have h0 : s0.volume = 0 := by
        have := hoth (k0, s0) (List.mem_cons_self _ _) (fun h => hk (show k = k0 from h.symm))
        simpa using this
      rw [List.countP_cons, ih hnd.2 hget (fun q hq hqk => hoth q (List.mem_cons_of_mem _ hq) hqk)]
      simp [h0]

theorem exclusive_of_audibleInv {p : AudioPlayer} (h : audibleInv p) : exclusiveAudible p := by
  obtain ⟨hnd, k, hstm, ⟨s, hget, hvol⟩, hoth⟩ := h
  refine ⟨countP_vol_one hnd hget hvol hoth, ?_⟩
  intro q hq
  by_cases hk : q.1 = k
  · left
    have hq2 : dictGet p.sounds q.1 = some q.2 := dictGet_of_mem_nodup hnd hq
    rw [hk, hget] at hq2
    have : s = q.2 := by injection hq2
    rw [← this]; exact hvol
  · right; exact hoth q hq hk

theorem set_volume_keys (p : AudioPlayer) (k : String) (v : ℚ) :
    (p.set_volume k v).sounds.map Prod.fst = p.sounds.map Prod.fst := by
  simp [AudioPlayer.set_volume, updVol_keys]

theorem process_message_eq_of_found {p : AudioPlayer} {k k' : String} {s s1 : Sound} {m : Int}
    (hstm : p.sound_to_mute = some k) (hget : dictGet p.sounds k = some s)
    (hidx : pyIndex (pySorted (p.sounds.map Prod.fst)) m = some k')
    (hs1 : dictGet (p.set_volume k 0).sounds k' = some s1) :
    p.process_message m =
      ⟨[VolEvent.setVol k 0, VolEvent.setVol k' 1],
       { (p.set_volume k 0).set_volume k' 1 with sound_to_mute := some k' }, false⟩ := by
  unfold AudioPlayer.process_message
  rw [muteCurrent_of_found hstm hget]
  simp only [set_volume_keys, hidx, AudioPlayer.unmuteNew, hs1]
  rfl

theorem process_message_raised_of_none {p : AudioPlayer} {k : String} {s : Sound} {m : Int}
    (hstm : p.sound_to_mute = some k) (hget : dictGet p.sounds k = some s)
    (hidx : pyIndex (pySorted (p.sounds.map Prod.fst)) m = none) :
    p.process_message m = ⟨[VolEvent.setVol k 0], p.set_volume k 0, true⟩ := by
  unfold AudioPlayer.process_message
  rw [muteCurrent_of_found hstm hget]
  simp only [set_volume_keys, hidx]

theorem process_message_switch {p : AudioPlayer} {m : Int} {k' : String}
    (hInv : audibleInv p)
    (hidx : pyIndex (pySorted (p.sounds.map Prod.fst)) m = some k') :
    (p.process_message m).raised = false ∧
    (p.process_message m).state.sound_to_mute = some k' ∧
    (p.process_message m).state.sounds.map Prod.fst = p.sounds.map Prod.fst ∧
    audibleInv (p.process_message m).state := by
  obtain ⟨hnd, k, hstm, ⟨s, hget, hvol⟩, hoth⟩ := hInv
  have hk'mem : k' ∈ p.sounds.map Prod.fst := mem_pySorted.1 (pyIndex_mem hidx)
  have hs1gen : ∀ x, dictGet (p.set_volume k 0).sounds x =
      if x = k then (dictGet p.sounds k).map (fun t => { t with volume := (0 : ℚ) })
      else dictGet p.sounds x := by
    intro x
    show dictGet (updVol p.sounds k 0) x = _
    rw [dictGet_updVol]
  have hex : ∃ s1, dictGet (p.set_volume k 0).sounds k' = some s1 := by
    by_cases hk : k' = k
    · refine ⟨{ s with volume := 0 }, ?_⟩
      rw [hs1gen k', if_pos hk, hget]
      rfl
    · cases ho : dictGet p.sounds k' with
      | none => exact absurd hk'mem (dictGet_eq_none_iff.1 ho)
      | some s2 =>
        refine ⟨s2, ?_⟩
        rw [hs1gen k', if_neg hk, ho]
  obtain ⟨s1, hs1⟩ := hex
  rw [process_message_eq_of_found hstm hget hidx hs1]
  have hkeysf : (((p.set_volume k 0).set_volume k' 1).sounds.map Prod.fst) = p.sounds.map Prod.fst := by
    rw [set_volume_keys, set_volume_keys]
  refine ⟨rfl, rfl, hkeysf, ?_, ?_⟩
  · rw [show (({ ((p.set_volume k 0).set_volume k' 1) with sound_to_mute := some k' } : AudioPlayer).sounds.map Prod.fst)
        = (((p.set_volume k 0).set_volume k' 1).sounds.map Prod.fst) from rfl, hkeysf]
    exact hnd
  · refine ⟨k', rfl, ⟨{ s1 with volume := 1 }, ?_, rfl⟩, ?_⟩
    · show dictGet (updVol (p.set_volume k 0).sounds k' 1) k' = _
      rw [dictGet_updVol, if_pos rfl, hs1]
      rfl
    · intro q hq hqk
      have hndf : (((p.set_volume k 0).set_volume k' 1).sounds.map Prod.fst).Nodup := by
        rw [hkeysf]; exact hnd
      have hgq : dictGet ((p.set_volume k 0).set_volume k' 1).sounds q.1 = some q.2 :=
        dictGet_of_mem_nodup hndf hq
      have h1 : dictGet ((p.set_volume k 0).set_volume k' 1).sounds q.1
          = if q.1 = k' then (dictGet (p.set_volume k 0).sounds k').map (fun t => { t with volume := (1 : ℚ) })
            else dictGet (p.set_volume k 0).sounds q.1 := by
        show dictGet (updVol (p.set_volume k 0).sounds k' 1) q.1 = _
        rw [dictGet_updVol]
      rw [h1, if_neg hqk, hs1gen q.1] at hgq
      by_cases hk0 : q.1 = k
      · rw [if_pos hk0, hget] at hgq
        simp only [Option.map_some'] at hgq
        have hq2 : ({ s with volume := (0 : ℚ) } : Sound) = q.2 := by injection hgq
        rw [← hq2]
      · rw [if_neg hk0] at hgq
        exact hoth (q.1, q.2) (dictGet_mem hgq) hk0

theorem play_all_inv {p : AudioPlayer} (loops : Int)
    (hne : p.sounds ≠ []) (hnd : (p.sounds.map Prod.fst).Nodup) :
    audibleInv (p.play_all_sounds loops) := by
  cases hl : p.sounds with
  | nil => exact absurd hl hne
  | cons hd tl =>
    obtain ⟨k0, s0⟩ := hd
    have hres : p.play_all_sounds loops =
        { sounds := (k0, { volume := 1, playing := true, loops := loops }) ::
            tl.map (fun q => (q.1, { volume := 0, playing := true, loops := loops })),
          sound_to_mute := some k0 } := by
      unfold AudioPlayer.play_all_sounds
      rw [hl]
      rfl
    rw [hres]
    rw [hl] at hnd
    simp only [List.map_cons, List.nodup_cons] at hnd
    constructor
    · show (k0 :: (tl.map (fun q => (q.1, ({ volume := 0, playing := true, loops := loops } : Sound)))).map Prod.fst).Nodup
      have hk : (tl.map (fun q => (q.1, ({ volume := 0, playing := true, loops := loops } : Sound)))).map Prod.fst
          = tl.map Prod.fst := by
        rw [List.map_map]
        rfl
      rw [hk]
      exact List.nodup_cons.2 hnd
    · refine ⟨k0, rfl, ⟨{ volume := 1, playing := true, loops := loops }, ?_, rfl⟩, ?_⟩
      · rw [show dictGet ((k0, ({ volume := 1, playing := true, loops := loops } : Sound)) ::
            tl.map (fun q => (q.1, ({ volume := 0, playing := true, loops := loops } : Sound)))) k0
            = if k0 = k0 then some { volume := 1, playing := true, loops := loops }
              else dictGet (tl.map (fun q => (q.1, ({ volume := 0, playing := true, loops := loops } : Sound)))) k0
            from rfl, if_pos rfl]
      · intro q hq hqk
        rcases List.mem_cons.1 hq with h | h
        · rw [h] at hqk
          exact absurd rfl hqk
        · obtain ⟨q0, _, hq0⟩ := List.mem_map.1 h
          rw [← hq0]

theorem morphStep_inrange {p : AudioPlayer} {m2 : Int}
    (hInv : audibleInv p) (h0 : 0 ≤ m2) (hlt : m2 < (p.sounds.length : Int)) :
    ∃ p1, p.morphStep m2 = StepResult.continued p1 ∧ audibleInv p1 ∧
      p1.sounds.length = p.sounds.length := by
  by_cases h4 : m2 = 4
  · exact ⟨p, by simp [AudioPlayer.morphStep, h4], hInv, rfl⟩
  · have hne1 : m2 ≠ -1 := by omega
    have hlen : (pySorted (p.sounds.map Prod.fst)).length = p.sounds.length := by
      rw [pySorted_length, List.length_map]
    have hidx : ∃ k', pyIndex (pySorted (p.sounds.map Prod.fst)) m2 = some k' := by
      rw [pyIndex_of_nonneg h0]
      cases hg : (pySorted (p.sounds.map Prod.fst)).get? m2.toNat with
      | none =>
        have := List.get?_eq_none.1 hg
        rw [hlen] at this
        omega
      | some k1 => exact ⟨k1, rfl⟩
    obtain ⟨k', hk'⟩ := hidx
    obtain ⟨hraised, hstm, hkeys, hinv'⟩ := process_message_switch hInv hk'
    refine ⟨(p.process_message m2).state, ?_, hinv', ?_⟩
    · unfold AudioPlayer.morphStep
      rw [if_neg h4, if_pos hne1, if_neg (by rw [hraised]; exact Bool.false_ne_true)]
    · have hlenm := congrArg List.length hkeys
      simpa using hlenm

theorem runMessages_inv {msgs : List Int} : ∀ {p : AudioPlayer}, audibleInv p →
    (∀ m2 ∈ msgs, 0 ≤ m2 ∧ m2 < (p.sounds.length : Int)) →
    audibleInv (p.runMessages msgs) := by
  induction msgs with
  | nil =>
    intro p h _
    exact h
  | cons m2 ms ih =>
    intro p hInv hbound
    obtain ⟨h0, hlt⟩ := hbound m2 (List.mem_cons_self _ _)
    obtain ⟨p1, hstep, hinv1, hlen⟩ := morphStep_inrange hInv h0 hlt
    simp only [AudioPlayer.runMessages, hstep]
    refine ih hinv1 ?_
    intro x hx
    have h2 := hbound x (List.mem_cons_of_mem _ hx)
    refine ⟨h2.1, ?_⟩
    rw [hlen]
    exact h2.2

theorem sound_upd_vol_self {t : Sound} {v : ℚ} (h : t.volume = v) :
    ({ t with volume := v } : Sound) = t := by
  cases t
  dsimp at h
  rw [h]

theorem play_all_keys (p : AudioPlayer) (loops : Int) :
    (p.play_all_sounds loops).sounds.map Prod.fst = p.sounds.map Prod.fst := by
  cases hl : p.sounds with
  | nil =>
    unfold AudioPlayer.play_all_sounds
    rw [hl]
    rfl
  | cons hd tl =>
    obtain ⟨k0, s0⟩ := hd
    unfold AudioPlayer.play_all_sounds
    rw [hl]
    simp [List.map_map, Function.comp]

/-- A concrete three-track bank in the post-`play_all` state: tracks
`"a" < "b" < "c"`, track `"a"` audible. -/
def bank3 : AudioPlayer :=
  ⟨[("a", ⟨1, true, 0⟩), ("b", ⟨0, true, 0⟩), ("c", ⟨0, true, 0⟩)], some "a"⟩

theorem bank3_inv : audibleInv bank3 :=
  ⟨by decide, "a", rfl, ⟨⟨1, true, 0⟩, by decide, by decide⟩, by decide⟩

/-- A concrete two-track bank as `load_sounds` leaves it, before `play_all`
(pygame sounds start at full gain, not yet playing). -/
def bank2pre : AudioPlayer :=
  ⟨[("a", ⟨1, false, 0⟩), ("b", ⟨1, false, 0⟩)], none⟩

/-- Claim C1 as stated is false on the code: against the three-track bank
`bank3`, processing a `SwitchCommand` with index 99 raises an uncaught
`IndexError` (`raised = true`) and the gain of the audible track `"a"` has
already been changed from 1 to 0 when the exception escapes. -/
theorem C1_counterexample :
    (bank3.process_message 99).raised = true ∧
    dictGet (bank3.process_message 99).state.sounds "a" = some ⟨0, true, 0⟩ ∧
    dictGet bank3.sounds "a" = some ⟨1, true, 0⟩ ∧
    bank3.sounds.length = 3 := by
  decide

/-- Claim C1 amended: for every bank whose recorded audible track is loaded,
a `SwitchCommand` with index `m ≥ N` is not ignored and not logged — the
code first mutes the currently audible track (its gain becomes 0) and then
raises `IndexError` from indexing the sorted key list, crashing the
processing. -/
theorem C1_amended_out_of_range (p : AudioPlayer) (m : Int) (k : String) (s : Sound)
    (hstm : p.sound_to_mute = some k) (hget : dictGet p.sounds k = some s)
    (hge : (p.sounds.length : Int) ≤ m) :
    (p.process_message m).raised = true ∧
    (p.process_message m).trace = [VolEvent.setVol k 0] ∧
    dictGet (p.process_message m).state.sounds k = some { s with volume := 0 } := by
  have hidx : pyIndex (pySorted (p.sounds.map Prod.fst)) m = none := by
    apply pyIndex_none_of_length_le
    rw [pySorted_length, List.length_map]
    exact hge
  rw [process_message_raised_of_none hstm hget hidx]
  refine ⟨rfl, rfl, ?_⟩
  show dictGet (updVol p.sounds k 0) k = _
  rw [dictGet_updVol, if_pos rfl, hget]
  rfl

/-- Witness for the amended C1 at the concrete bank `bank3` and index 99. -/
theorem C1_amended_out_of_range_witness :
    bank3.sound_to_mute = some "a" ∧
    dictGet bank3.sounds "a" = some ⟨1, true, 0⟩ ∧
    (bank3.sounds.length : Int) ≤ 99 ∧
    ((bank3.process_message 99).raised = true ∧
      (bank3.process_message 99).trace = [VolEvent.setVol "a" 0] ∧
      dictGet (bank3.process_message 99).state.sounds "a" = some ⟨0, true, 0⟩) :=
  ⟨rfl, by decide, by decide,
    C1_amended_out_of_range bank3 99 "a" ⟨1, true, 0⟩ rfl (by decide) (by decide)⟩

/-- Claim C2: for every non-empty bank with distinct track keys, immediately
after `play_all_sounds` and after any subsequently processed sequence of
in-range switch commands, exactly one track has gain 1 and every other track
has gain 0. -/
theorem C2_exclusive_audibility (p : AudioPlayer) (loops : Int) (msgs : List Int)
    (hne : p.sounds ≠ []) (hnd : (p.sounds.map Prod.fst).Nodup)
    (hin : ∀ m2 ∈ msgs, 0 ≤ m2 ∧ m2 < (p.sounds.length : Int)) :
    exclusiveAudible (p.play_all_sounds loops) ∧
    exclusiveAudible ((p.play_all_sounds loops).runMessages msgs) := by
  have hinv0 := play_all_inv loops hne hnd
  have hlen : (p.play_all_sounds loops).sounds.length = p.sounds.length := by
    have hk := congrArg List.length (play_all_keys p loops)
    simpa using hk
  refine ⟨exclusive_of_audibleInv hinv0, exclusive_of_audibleInv (runMessages_inv hinv0 ?_)⟩
  intro m2 hm2
  have h2 := hin m2 hm2
  refine ⟨h2.1, ?_⟩
  rw [hlen]
  exact h2.2

/-- Witness for C2 at a concrete two-track bank and switch sequence. -/
theorem C2_exclusive_audibility_witness :
    bank2pre.sounds ≠ [] ∧
    (bank2pre.sounds.map Prod.fst).Nodup ∧
    (∀ m2 ∈ [(1 : Int), 0, 0], 0 ≤ m2 ∧ m2 < (bank2pre.sounds.length : Int)) ∧
    (exclusiveAudible (bank2pre.play_all_sounds 5) ∧
      exclusiveAudible ((bank2pre.play_all_sounds 5).runMessages [1, 0, 0])) :=
  ⟨by decide, by decide, by decide,
    C2_exclusive_audibility bank2pre 5 [1, 0, 0] (by decide) (by decide) (by decide)⟩

/-- Claim C3 as stated is false on the code: with track `"a"` audible in
`bank3`, processing `switch(0)` (track `"a"` itself) performs a
`set_volume 0` call on the audible track mid-processing (a transient
double-mute), visible in the gain-change trace. -/
theorem C3_counterexample :
    bank3.sound_to_mute = some "a" ∧
    pyIndex (pySorted (bank3.sounds.map Prod.fst)) 0 = some "a" ∧
    VolEvent.setVol "a" 0 ∈ (bank3.process_message 0).trace := by
  decide

theorem comp_upd_fun (k : String) (q : String × Sound) :
    (fun r => if r.1 = k then (r.1, { r.2 with volume := (1 : ℚ) }) else r)
      ((fun r => if r.1 = k then (r.1, { r.2 with volume := (0 : ℚ) }) else r) q)
    = if q.1 = k then (q.1, { q.2 with volume := (1 : ℚ) }) else q := by
  show (fun r => if r.1 = k then (r.1, { r.2 with volume := (1 : ℚ) }) else r)
      (if q.1 = k then (q.1, { q.2 with volume := (0 : ℚ) }) else q) = _
  by_cases hk : q.1 = k
  · rw [if_pos hk]
    show (if q.1 = k then (q.1, ({ q.2 with volume := (1 : ℚ) } : Sound))
        else (q.1, { q.2 with volume := (0 : ℚ) })) = _
    rw [if_pos hk, if_pos hk]
  · rw [if_neg hk]

/-- Claim C3 amended: processing `switch(k)` when track `k` is already the
audible track leaves the final player state exactly unchanged (all gains and
the audible id), but the processing is not a skipped no-op: the audible
track is transiently set to gain 0 and then back to gain 1. -/
theorem C3_amended_idempotent (p : AudioPlayer) (m : Int) (k : String) (s : Sound)
    (hnd : (p.sounds.map Prod.fst).Nodup)
    (hstm : p.sound_to_mute = some k) (hget : dictGet p.sounds k = some s) (hvol : s.volume = 1)
    (hidx : pyIndex (pySorted (p.sounds.map Prod.fst)) m = some k) :
    p.process_message m = ⟨[VolEvent.setVol k 0, VolEvent.setVol k 1], p, false⟩ := by
  have hs1 : dictGet (p.set_volume k 0).sounds k = some { s with volume := 0 } := by
    show dictGet (updVol p.sounds k 0) k = _
    rw [dictGet_updVol, if_pos rfl, hget]
    rfl
  rw [process_message_eq_of_found hstm hget hidx hs1]
  have hsounds : updVol (updVol p.sounds k 0) k 1 = p.sounds := by
    rw [updVol, updVol, List.map_map]
    have hpt : ∀ q ∈ p.sounds,
        ((fun r => if r.1 = k then (r.1, { r.2 with volume := (1 : ℚ) }) else r) ∘
          (fun r => if r.1 = k then (r.1, { r.2 with volume := (0 : ℚ) }) else r)) q = q := by
      intro q hq
      by_cases hk : q.1 = k
      · have hq2 : s = q.2 := by
          have hh := dictGet_of_mem_nodup hnd hq
          rw [hk, hget] at hh
          injection hh
        have hv1 : q.2.volume = 1 := by
          rw [← hq2]
          exact hvol
        exact (comp_upd_fun k q).trans (by rw [if_pos hk, sound_upd_vol_self hv1])
      · exact (comp_upd_fun k q).trans (by rw [if_neg hk])
    calc List.map ((fun r => if r.1 = k then (r.1, { r.2 with volume := (1 : ℚ) }) else r) ∘
            (fun r => if r.1 = k then (r.1, { r.2 with volume := (0 : ℚ) }) else r)) p.sounds
        = List.map (fun q => q) p.sounds := by
          refine List.map_congr_left ?_
          intro q hq
          exact hpt q hq
      _ = p.sounds := List.map_id' p.sounds
  show ProcResult.mk [VolEvent.setVol k 0, VolEvent.setVol k 1]
      { sounds := updVol (updVol p.sounds k 0) k 1, sound_to_mute := some k } false = _
  rw [hsounds, ← hstm]

/-- Witness for the amended C3 at `bank3` with `switch(0)` on the audible
track `"a"`. -/
theorem C3_amended_idempotent_witness :
    (bank3.sounds.map Prod.fst).Nodup ∧
    bank3.sound_to_mute = some "a" ∧
    dictGet bank3.sounds "a" = some ⟨1, true, 0⟩ ∧
    (⟨1, true, 0⟩ : Sound).volume = 1 ∧
    pyIndex (pySorted (bank3.sounds.map Prod.fst)) 0 = some "a" ∧
    bank3.process_message 0 = ⟨[VolEvent.setVol "a" 0, VolEvent.setVol "a" 1], bank3, false⟩ :=
  ⟨by decide, rfl, by decide, by decide, by decide,
    C3_amended_idempotent bank3 0 "a" ⟨1, true, 0⟩ (by decide) rfl (by decide) (by decide) (by decide)⟩

/-- Claim C4's second half is false on the code: against `bank3` (audible
track `"a"`), the negative `SwitchCommand` `-2` is not a no-op — Python
wrap-around indexing selects track `"b"`, whose gain becomes 1 while `"a"`
is muted and the audible id changes. -/
theorem C4_counterexample :
    bank3.morphStep (-2) = StepResult.continued (bank3.process_message (-2)).state ∧
    (bank3.process_message (-2)).state.sound_to_mute = some "b" ∧
    bank3.sound_to_mute = some "a" ∧
    dictGet (bank3.process_message (-2)).state.sounds "b" = some ⟨1, true, 0⟩ ∧
    dictGet bank3.sounds "b" = some ⟨0, true, 0⟩ := by
  decide

/-- Claim C4 amended: the sentinel `-1` makes the morph loop call
`stop_all_sounds` and exit; any other negative value `m` is interpreted as a
Python index from the end of the sorted key list — for `-N ≤ m` the command
switches the audible track to position `N + m`, and for `m < -N` it raises
`IndexError` (after muting the audible track). -/
theorem C4_amended_negative (p : AudioPlayer) (m : Int) (hInv : audibleInv p) (hm : m < 0) :
    p.morphStep (-1) = StepResult.stopped p.stop_all_sounds ∧
    (m ≠ -1 → -(p.sounds.length : Int) ≤ m →
      (p.process_message m).raised = false ∧
      (p.process_message m).state.sound_to_mute
        = (pySorted (p.sounds.map Prod.fst)).get? (m + p.sounds.length).toNat) ∧
    (m + (p.sounds.length : Int) < 0 → (p.process_message m).raised = true) := by
  have hlen : (pySorted (p.sounds.map Prod.fst)).length = p.sounds.length := by
    rw [pySorted_length, List.length_map]
  refine ⟨?_, ?_, ?_⟩
  · unfold AudioPlayer.morphStep
    rw [if_neg (by decide), if_neg (by simp)]
  · intro hne1 hgeN
    have hge' : 0 ≤ m + ((pySorted (p.sounds.map Prod.fst)).length : Int) := by
      rw [hlen]
      omega
    have hidx0 := pyIndex_neg (l := pySorted (p.sounds.map Prod.fst)) hm hge'
    rw [hlen] at hidx0
    have hlt : (m + p.sounds.length).toNat < (pySorted (p.sounds.map Prod.fst)).length := by
      rw [hlen]
      omega
    obtain ⟨k', hk'⟩ : ∃ k',
        (pySorted (p.sounds.map Prod.fst)).get? (m + p.sounds.length).toNat = some k' := by
      cases hg : (pySorted (p.sounds.map Prod.fst)).get? (m + p.sounds.length).toNat with
      | none =>
        have := List.get?_eq_none.1 hg
        omega
      | some k1 => exact ⟨k1, rfl⟩
    obtain ⟨hraised, hstm, _, _⟩ := process_message_switch hInv (hidx0.trans hk')
    exact ⟨hraised, hstm.trans hk'.symm⟩
  · intro hlt0
    obtain ⟨hnd, k, hstm, ⟨s, hget, hvol⟩, hoth⟩ := hInv
    have hidx : pyIndex (pySorted (p.sounds.map Prod.fst)) m = none := by
      apply pyIndex_none_of_add_neg
      rw [hlen]
      exact hlt0
    rw [process_message_raised_of_none hstm hget hidx]

/-- Witness for the amended C4 at `bank3` with message `-2` (switches to
track `"b"`, position `3 + (-2) = 1`). -/
theorem C4_amended_negative_witness :
    audibleInv bank3 ∧
    (-2 : Int) < 0 ∧
    (bank3.morphStep (-1) = StepResult.stopped bank3.stop_all_sounds ∧
      ((-2 : Int) ≠ -1 → -(bank3.sounds.length : Int) ≤ (-2 : Int) →
        (bank3.process_message (-2)).raised = false ∧
        (bank3.process_message (-2)).state.sound_to_mute
          = (pySorted (bank3.sounds.map Prod.fst)).get? ((-2 : Int) + bank3.sounds.length).toNat) ∧
      ((-2 : Int) + (bank3.sounds.length : Int) < 0 →
        (bank3.process_message (-2)).raised = true)) :=
  ⟨bank3_inv, by decide, C4_amended_negative bank3 (-2) bank3_inv (by decide)⟩

/-- Claim C5: on a bank whose keys are in sorted filename order (as
`load_sounds` produces, iterating the sorted directory listing), a non-empty
bank after `play_all_sounds loops` has every track playing with the given
loop count, the sorted-first track at gain 1 and recorded as the sound to
mute, and every other track at gain 0; on the empty bank `play_all_sounds`
is an exact no-op (and raises nothing, being total). -/
theorem C5_play_all_sounds (p : AudioPlayer) (loops : Int)
    (hsorted : List.Sorted pyStrLeRel (p.sounds.map Prod.fst)) :
    (p.sounds = [] → p.play_all_sounds loops = p) ∧
    (∀ k0 s0 tl, p.sounds = (k0, s0) :: tl →
      (pySorted (p.sounds.map Prod.fst)).head? = some k0 ∧
      (p.play_all_sounds loops).sound_to_mute = some k0 ∧
      (∀ q ∈ (p.play_all_sounds loops).sounds, q.2.playing = true ∧ q.2.loops = loops) ∧
      dictGet (p.play_all_sounds loops).sounds k0 = some ⟨1, true, loops⟩ ∧
      (∀ q ∈ (p.play_all_sounds loops).sounds, q.1 ≠ k0 → q.2.volume = 0)) := by
  constructor
  · intro hl
    cases p with
    | mk sounds stm =>
      dsimp only at hl
      subst hl
      rfl
  · intro k0 s0 tl hl
    have hres : p.play_all_sounds loops =
        { sounds := (k0, { volume := 1, playing := true, loops := loops }) ::
            tl.map (fun q => (q.1, { volume := 0, playing := true, loops := loops })),
          sound_to_mute := some k0 } := by
      unfold AudioPlayer.play_all_sounds
      rw [hl]
      rfl
    have hhead : (pySorted (p.sounds.map Prod.fst)).head? = some k0 := by
      show (List.insertionSort pyStrLeRel (p.sounds.map Prod.fst)).head? = some k0
      rw [hsorted.insertionSort_eq, hl]
      rfl
    refine ⟨hhead, ?_, ?_, ?_, ?_⟩
    · rw [hres]
    · intro q hq
      rw [hres] at hq
      rcases List.mem_cons.1 hq with hh | hh
      · rw [hh]
        exact ⟨rfl, rfl⟩
      · obtain ⟨q0, _, hq0⟩ := List.mem_map.1 hh
        rw [← hq0]
        exact ⟨rfl, rfl⟩
    · rw [hres]
      rw [show dictGet ((k0, ({ volume := 1, playing := true, loops := loops } : Sound)) ::
            tl.map (fun q => (q.1, ({ volume := 0, playing := true, loops := loops } : Sound)))) k0
          = if k0 = k0 then some ({ volume := 1, playing := true, loops := loops } : Sound)
            else dictGet (tl.map (fun q =>
              (q.1, ({ volume := 0, playing := true, loops := loops } : Sound)))) k0
          from rfl, if_pos rfl]
    · intro q hq hqk
      rw [hres] at hq
      rcases List.mem_cons.1 hq with hh | hh
      · rw [hh] at hqk
        exact absurd rfl hqk
      · obtain ⟨q0, _, hq0⟩ := List.mem_map.1 hh
        rw [← hq0]

/-- Witness for C5 at the concrete sorted two-track bank `bank2pre` with
loop count 7. -/
theorem C5_play_all_sounds_witness :
    List.Sorted pyStrLeRel (bank2pre.sounds.map Prod.fst) ∧
    ((pySorted (bank2pre.sounds.map Prod.fst)).head? = some "a" ∧
      (bank2pre.play_all_sounds 7).sound_to_mute = some "a" ∧
      (∀ q ∈ (bank2pre.play_all_sounds 7).sounds, q.2.playing = true ∧ q.2.loops = 7) ∧
      dictGet (bank2pre.play_all_sounds 7).sounds "a" = some ⟨1, true, 7⟩ ∧
      (∀ q ∈ (bank2pre.play_all_sounds 7).sounds, q.1 ≠ "a" → q.2.volume = 0)) :=
  ⟨by decide,
    (C5_play_all_sounds bank2pre 7 (by decide)).2 "a" ⟨1, false, 0⟩ [("b", ⟨1, false, 0⟩)] rfl⟩

/-- Claim C6: stopping a recording that started at `t0` at time `t1 ≥ t0`
truncates the pre-allocated buffer to exactly
`⌊min (t1 - t0) max_duration * sample_rate⌋` samples, never exceeding
`max_duration * sample_rate`. -/
theorem C6_recording_trim (max_duration : ℕ) (t0 t1 : ℚ) (h : 0 ≤ t1 - t0) :
    ((Recorder.init max_duration).stop_recording t0 t1).recorded_audio.length
      = (⌊min (t1 - t0) (max_duration : ℚ) * (RECORDING_SR : ℚ)⌋).toNat ∧
    ((Recorder.init max_duration).stop_recording t0 t1).recorded_audio.length
      ≤ max_duration * RECORDING_SR := by
  have hq0 : 0 ≤ min (t1 - t0) (max_duration : ℚ) * (RECORDING_SR : ℚ) :=
    mul_nonneg (le_min h (by positivity)) (by positivity)
  have hfl0 : 0 ≤ ⌊min (t1 - t0) (max_duration : ℚ) * (RECORDING_SR : ℚ)⌋ :=
    Int.floor_nonneg.2 hq0
  have hle : ⌊min (t1 - t0) (max_duration : ℚ) * (RECORDING_SR : ℚ)⌋
      ≤ ((max_duration * RECORDING_SR : ℕ) : Int) := by
    have h1 : min (t1 - t0) (max_duration : ℚ) * (RECORDING_SR : ℚ)
        ≤ (max_duration : ℚ) * (RECORDING_SR : ℚ) :=
      mul_le_mul_of_nonneg_right (min_le_right _ _) (by positivity)
    calc ⌊min (t1 - t0) (max_duration : ℚ) * (RECORDING_SR : ℚ)⌋
        ≤ ⌊(max_duration : ℚ) * (RECORDING_SR : ℚ)⌋ := Int.floor_le_floor h1
      _ = ((max_duration * RECORDING_SR : ℕ) : Int) := by
          rw [show ((max_duration : ℚ) * (RECORDING_SR : ℚ))
              = ((max_duration * RECORDING_SR : ℕ) : ℚ) by push_cast; ring]
          exact Int.floor_natCast _
  have hbuf : ((Recorder.init max_duration).stop_recording t0 t1).recorded_audio
      = (List.replicate (RECORDING_SR * max_duration) (0 : ℚ)).take
          (⌊min (t1 - t0) (max_duration : ℚ) * (RECORDING_SR : ℚ)⌋).toNat := by
    show pySliceTo (List.replicate (RECORDING_SR * max_duration) (0 : ℚ))
        (pyInt (min (t1 - t0) (max_duration : ℚ) * (RECORDING_SR : ℚ))) = _
    unfold pyInt pySliceTo
    rw [if_pos hq0, if_pos hfl0]
  rw [hbuf, List.length_take, List.length_replicate]
  have hcomm : RECORDING_SR * max_duration = max_duration * RECORDING_SR := Nat.mul_comm _ _
  constructor
  · omega
  · omega

/-- Witness for C6: `max_duration = 14`, recording stopped after 5.2
seconds, buffer trimmed to `⌊5.2 * 44100⌋ = 229320` samples, below the cap
`14 * 44100 = 617400`. -/
theorem C6_recording_trim_witness :
    (0 : ℚ) ≤ 26/5 - 0 ∧
    ((Recorder.init 14).stop_recording 0 (26/5)).recorded_audio.length
      = (⌊min ((26 : ℚ)/5 - 0) ((14 : ℕ) : ℚ) * (RECORDING_SR : ℚ)⌋).toNat ∧
    ((Recorder.init 14).stop_recording 0 (26/5)).recorded_audio.length ≤ 14 * RECORDING_SR ∧
    ((Recorder.init 14).stop_recording 0 (26/5)).recorded_audio.length = 229320 := by
  have happ := C6_recording_trim 14 0 (26/5) (by norm_num)
  refine ⟨by norm_num, happ.1, happ.2, ?_⟩
  rw [happ.1]
  rw [show min ((26 : ℚ)/5 - 0) ((14 : ℕ) : ℚ) = (26 : ℚ)/5 - 0 from
    min_eq_left (by norm_num)]
  norm_num [RECORDING_SR]
  rfl

/-- The empty thread manager (fresh registries, no spawned workers). -/
def tmEmpty : ThreadManager := ⟨[], [], [], [], ⟨[]⟩, ⟨[]⟩, 0, 0⟩

/-- One worker started under the name `"w"` (worker id 0, stop event 0). -/
def tmC7one : ThreadManager := tmEmpty.start_thread "w"

/-- Claim C7 is false on the code: `start_thread` performs no liveness
guard.  With the worker under `"w"` still alive, a second `start_thread`
call is silently performed: the registry now points at the new worker
(id 1), the old live worker (id 0) is still in the thread world but
orphaned, and its stop event (id 0) is still unset with no registry entry
left to reach it. -/
theorem C7_counterexample :
    tmC7one.is_thread_active "w" = true ∧
    tmC7one.start_thread "w" ≠ tmC7one ∧
    dictGet (tmC7one.start_thread "w").threads "w" = some 1 ∧
    dictGet tmC7one.threads "w" = some 0 ∧
    Worker.mk 0 true ∈ (tmC7one.start_thread "w").workers ∧
    dictGet (tmC7one.start_thread "w").events_world 0 = some false := by
  decide

/-- Claim C7 amended: `start_thread` unconditionally registers a fresh
worker and a fresh stop event under the name, overwriting whatever the
registries held, while every previously spawned worker (live or not) stays
in the thread world untouched — a still-live worker under the same name is
silently orphaned rather than guarded against. -/
theorem C7_amended_no_guard (tm : ThreadManager) (name : String) :
    dictGet (tm.start_thread name).threads name = some tm.nextWid ∧
    dictGet (tm.start_thread name).stop_events name = some tm.nextEid ∧
    Worker.mk tm.nextWid true ∈ (tm.start_thread name).workers ∧
    (∀ w ∈ tm.workers, w ∈ (tm.start_thread name).workers) := by
  refine ⟨?_, ?_, ?_, ?_⟩
  · show dictGet (dictSet tm.threads name tm.nextWid) name = some tm.nextWid
    exact dictGet_dictSet_self _ _ _
  · show dictGet (dictSet tm.stop_events name tm.nextEid) name = some tm.nextEid
    exact dictGet_dictSet_self _ _ _
  · show Worker.mk tm.nextWid true ∈ tm.workers ++ [⟨tm.nextWid, true⟩]
    simp
  · intro w hw
    show w ∈ tm.workers ++ [⟨tm.nextWid, true⟩]
    exact List.mem_append_left _ hw

/-- Witness for the amended C7 at the concrete one-worker manager. -/
theorem C7_amended_no_guard_witness :
    dictGet (tmC7one.start_thread "w").threads "w" = some tmC7one.nextWid ∧
    dictGet (tmC7one.start_thread "w").stop_events "w" = some tmC7one.nextEid ∧
    Worker.mk tmC7one.nextWid true ∈ (tmC7one.start_thread "w").workers ∧
    (∀ w ∈ tmC7one.workers, w ∈ (tmC7one.start_thread "w").workers) :=
  C7_amended_no_guard tmC7one "w"

theorem mem_keys_dictDel {κ α : Type} [DecidableEq κ] {d : List (κ × α)} {k x : κ}
    (h : x ∈ (dictDel d k).map Prod.fst) : x ∈ d.map Prod.fst := by
  induction d with
  | nil => simp [dictDel] at h
  | cons hd tl ih =>
    obtain ⟨k0, v0⟩ := hd
    by_cases hk : k = k0
    · rw [show dictDel ((k0, v0) :: tl) k = if k = k0 then tl else (k0, v0) :: dictDel tl k
        from rfl, if_pos hk] at h
      exact List.mem_cons_of_mem _ h
    · rw [show dictDel ((k0, v0) :: tl) k = if k = k0 then tl else (k0, v0) :: dictDel tl k
        from rfl, if_neg hk, List.map_cons] at h
      rcases List.mem_cons.1 h with hh | hh
      · rw [hh]
        exact List.mem_cons_self _ _
      · exact List.mem_cons_of_mem _ (ih hh)

theorem nodup_keys_dictDel {κ α : Type} [DecidableEq κ] {d : List (κ × α)} (k : κ)
    (hnd : (d.map Prod.fst).Nodup) : ((dictDel d k).map Prod.fst).Nodup := by
  induction d with
  | nil => simp [dictDel]
  | cons hd tl ih =>
    obtain ⟨k0, v0⟩ := hd
    simp only [List.map_cons, List.nodup_cons] at hnd
    by_cases h : k = k0
    · rw [show dictDel ((k0, v0) :: tl) k = if k = k0 then tl else (k0, v0) :: dictDel tl k
        from rfl, if_pos h]
      exact hnd.2
    · rw [show dictDel ((k0, v0) :: tl) k = if k = k0 then tl else (k0, v0) :: dictDel tl k
        from rfl, if_neg h, List.map_cons]
      refine List.nodup_cons.2 ⟨?_, ih hnd.2⟩
      intro hmem
      exact hnd.1 (mem_keys_dictDel hmem)

theorem findWorker_kill (ws : List Worker) (wid wid' : ℕ) :
    findWorker (killWorker ws wid) wid'
    = (findWorker ws wid').map fun w => if w.wid = wid then { w with alive := false } else w := by
  unfold findWorker killWorker
  rw [List.find?_map]
  have hq : ((fun w : Worker => w.wid == wid') ∘
        fun w : Worker => if w.wid = wid then { w with alive := false } else w)
      = fun w : Worker => w.wid == wid' := by
    funext w
    by_cases h : w.wid = wid
    · simp [Function.comp, h]
    · simp [Function.comp, h]
  rw [hq]

theorem findWorker_wid {ws : List Worker} {wid : ℕ} {w : Worker}
    (h : findWorker ws wid = some w) : w.wid = wid := by
  have hb := List.find?_some h
  simpa using hb

theorem is_thread_active_eq {tm : ThreadManager} {name : String} {wid : ℕ} {w : Worker}
    (hg : dictGet tm.threads name = some wid) (hf : findWorker tm.workers wid = some w) :
    tm.is_thread_active name = w.alive := by
  unfold ThreadManager.is_thread_active
  simp only [hg, hf]

theorem stop_thread_eq {tm : ThreadManager} {name : String} {wid eid : ℕ}
    (hg : dictGet tm.threads name = some wid) (he : dictGet tm.stop_events name = some eid) :
    tm.stop_thread name = some
      { tm with
        events_world := setEventWorld tm.events_world eid,
        workers := killWorker tm.workers wid,
        threads := dictDel tm.threads name,
        stop_events := dictDel tm.stop_events name } := by
  unfold ThreadManager.stop_thread
  simp only [hg, he]

theorem controller_stop_thread_eq {c : Controller} {name : String} {wid eid : ℕ} {w : Worker}
    (hg : dictGet c.thread_manager.threads name = some wid)
    (he : dictGet c.thread_manager.stop_events name = some eid)
    (hf : findWorker c.thread_manager.workers wid = some w) (ha : w.alive = true) :
    c.stop_thread name = ({ c with thread_manager := { c.thread_manager with
        events_world := setEventWorld c.thread_manager.events_world eid,
        workers := killWorker c.thread_manager.workers wid,
        threads := dictDel c.thread_manager.threads name,
        stop_events := dictDel c.thread_manager.stop_events name } },
      [ClearAction.stopJoin name]) := by
  unfold Controller.stop_thread
  rw [is_thread_active_eq hg hf, ha]
  simp only [stop_thread_eq hg he, if_true]

/-- A controller with the pose-classification and audio-morphing workers
started (both alive) and one loaded track. -/
def ctlC8 : Controller :=
  ⟨(tmEmpty.start_thread "pose_classification_thread").start_thread "audio_morphing",
    ⟨[("a", ⟨1, true, 0⟩)], some "a"⟩⟩

/-- Claim C8's ordering conjunct is false on the code: from a state with
both workers alive, `Controller.clear` releases the track bank first
(`audio_manager.clear()` is its first statement) and only then stops and
joins the two workers, so the performed teardown trace has the bank release
before every worker stop — the workers outlive the released bank, the
reverse of the claimed order. -/
theorem C8_counterexample :
    ctlC8.thread_manager.is_thread_active "pose_classification_thread" = true ∧
    ctlC8.thread_manager.is_thread_active "audio_morphing" = true ∧
    ctlC8.player.sounds ≠ [] ∧
    (Controller.clear ctlC8).2
      = [ClearAction.releaseBank, ClearAction.stopJoin "pose_classification_thread",
         ClearAction.stopJoin "audio_morphing"] ∧
    noStopAfterRelease (Controller.clear ctlC8).2 = false := by
  decide

/-- Claim C8 amended: from a state where both named workers are registered
with distinct live thread instances and registered stop events (and the
registries have distinct keys), `clear` does leave both workers dead and
deregistered and the track bank empty — but the teardown order is reversed
from the claim: the bank is released first, and each worker is stopped and
joined only afterwards, so the workers briefly outlive the resources they
depend on. -/
theorem C8_amended_teardown (c : Controller) (widP widM eidP eidM : ℕ) (wP wM : Worker)
    (hgP : dictGet c.thread_manager.threads "pose_classification_thread" = some widP)
    (hgM : dictGet c.thread_manager.threads "audio_morphing" = some widM)
    (heP : dictGet c.thread_manager.stop_events "pose_classification_thread" = some eidP)
    (heM : dictGet c.thread_manager.stop_events "audio_morphing" = some eidM)
    (hfP : findWorker c.thread_manager.workers widP = some wP) (haP : wP.alive = true)
    (hfM : findWorker c.thread_manager.workers widM = some wM) (haM : wM.alive = true)
    (hww : widP ≠ widM)
    (hndt : (c.thread_manager.threads.map Prod.fst).Nodup)
    (hnds : (c.thread_manager.stop_events.map Prod.fst).Nodup) :
    (Controller.clear c).1.player.sounds = [] ∧
    dictGet (Controller.clear c).1.thread_manager.threads "pose_classification_thread" = none ∧
    dictGet (Controller.clear c).1.thread_manager.threads "audio_morphing" = none ∧
    dictGet (Controller.clear c).1.thread_manager.stop_events "pose_classification_thread" = none ∧
    dictGet (Controller.clear c).1.thread_manager.stop_events "audio_morphing" = none ∧
    (findWorker (Controller.clear c).1.thread_manager.workers widP).map Worker.alive = some false ∧
    (findWorker (Controller.clear c).1.thread_manager.workers widM).map Worker.alive = some false ∧
    (Controller.clear c).2
      = [ClearAction.releaseBank, ClearAction.stopJoin "pose_classification_thread",
         ClearAction.stopJoin "audio_morphing"] := by
  have hMP : ("pose_classification_thread" : String) ≠ "audio_morphing" := by decide
  have hPM : ("audio_morphing" : String) ≠ "pose_classification_thread" := by decide
  have hwidP : wP.wid = widP := findWorker_wid hfP
  have hwidM : wM.wid = widM := findWorker_wid hfM
  have hs1 := controller_stop_thread_eq
    (c := { c with player := c.player.clear_sounds }) hgP heP hfP haP
  have hgM2 : dictGet (dictDel c.thread_manager.threads "pose_classification_thread")
      "audio_morphing" = some widM := by
    rw [dictGet_dictDel_ne _ hPM, hgM]
  have heM2 : dictGet (dictDel c.thread_manager.stop_events "pose_classification_thread")
      "audio_morphing" = some eidM := by
    rw [dictGet_dictDel_ne _ hPM, heM]
  have hfM2 : findWorker (killWorker c.thread_manager.workers widP) widM = some wM := by
    rw [findWorker_kill, hfM, Option.map_some']
    rw [if_neg (by rw [hwidM]; exact fun hh => hww hh.symm)]
  have hs2 := controller_stop_thread_eq
    (c :=
      ({ thread_manager :=
          { c.thread_manager with
            events_world := setEventWorld c.thread_manager.events_world eidP,
            workers := killWorker c.thread_manager.workers widP,
            threads := dictDel c.thread_manager.threads "pose_classification_thread",
            stop_events := dictDel c.thread_manager.stop_events "pose_classification_thread" },
         player := c.player.clear_sounds } : Controller))
    hgM2 heM2 hfM2 haM
  have hclear : Controller.clear c =
      (({ thread_manager :=
            { c.thread_manager with
              events_world := setEventWorld (setEventWorld c.thread_manager.events_world eidP) eidM,
              workers := killWorker (killWorker c.thread_manager.workers widP) widM,
              threads := dictDel (dictDel c.thread_manager.threads "pose_classification_thread")
                "audio_morphing",
              stop_events := dictDel (dictDel c.thread_manager.stop_events
                "pose_classification_thread") "audio_morphing" },
          player := c.player.clear_sounds } : Controller),
        [ClearAction.releaseBank, ClearAction.stopJoin "pose_classification_thread",
          ClearAction.stopJoin "audio_morphing"]) := by
    unfold Controller.clear
    simp only [hs1, hs2]
    rfl
  rw [hclear]
  refine ⟨rfl, ?_, ?_, ?_, ?_, ?_, ?_, rfl⟩
  · show dictGet (dictDel (dictDel c.thread_manager.threads "pose_classification_thread")
        "audio_morphing") "pose_classification_thread" = none
    rw [dictGet_dictDel_ne _ hMP]
    exact dictGet_dictDel_self_of_nodup hndt
  · show dictGet (dictDel (dictDel c.thread_manager.threads "pose_classification_thread")
        "audio_morphing") "audio_morphing" = none
    exact dictGet_dictDel_self_of_nodup (nodup_keys_dictDel _ hndt)
  · show dictGet (dictDel (dictDel c.thread_manager.stop_events "pose_classification_thread")
        "audio_morphing") "pose_classification_thread" = none
    rw [dictGet_dictDel_ne _ hMP]
    exact dictGet_dictDel_self_of_nodup hnds
  · show dictGet (dictDel (dictDel c.thread_manager.stop_events "pose_classification_thread")
        "audio_morphing") "audio_morphing" = none
    exact dictGet_dictDel_self_of_nodup (nodup_keys_dictDel _ hnds)
  · show (findWorker (killWorker (killWorker c.thread_manager.workers widP) widM) widP).map
        Worker.alive = some false
    rw [findWorker_kill, findWorker_kill, hfP]
    simp only [Option.map_some']
    rw [if_pos hwidP]
    rw [if_neg (show ¬ ({ wP with alive := false } : Worker).wid = widM by
      show ¬ wP.wid = widM
      rw [hwidP]
      exact hww)]
  · show (findWorker (killWorker (killWorker c.thread_manager.workers widP) widM) widM).map
        Worker.alive = some false
    rw [findWorker_kill, findWorker_kill, hfM]
    simp only [Option.map_some']
    rw [if_neg (show ¬ wM.wid = widP by rw [hwidM]; exact fun hh => hww hh.symm), if_pos hwidM]

/-- Witness for the amended C8 at the concrete controller `ctlC8` (worker
ids 0 and 1, stop-event ids 0 and 1). -/
theorem C8_amended_teardown_witness :
    (dictGet ctlC8.thread_manager.threads "pose_classification_thread" = some 0 ∧
      dictGet ctlC8.thread_manager.threads "audio_morphing" = some 1 ∧
      dictGet ctlC8.thread_manager.stop_events "pose_classification_thread" = some 0 ∧
      dictGet ctlC8.thread_manager.stop_events "audio_morphing" = some 1 ∧
      findWorker ctlC8.thread_manager.workers 0 = some ⟨0, true⟩ ∧
      findWorker ctlC8.thread_manager.workers 1 = some ⟨1, true⟩) ∧
    ((Controller.clear ctlC8).1.player.sounds = [] ∧
      dictGet (Controller.clear ctlC8).1.thread_manager.threads "pose_classification_thread" = none ∧
      dictGet (Controller.clear ctlC8).1.thread_manager.threads "audio_morphing" = none ∧
      dictGet (Controller.clear ctlC8).1.thread_manager.stop_events "pose_classification_thread" = none ∧
      dictGet (Controller.clear ctlC8).1.thread_manager.stop_events "audio_morphing" = none ∧
      (findWorker (Controller.clear ctlC8).1.thread_manager.workers 0).map Worker.alive = some false ∧
      (findWorker (Controller.clear ctlC8).1.thread_manager.workers 1).map Worker.alive = some false ∧
      (Controller.clear ctlC8).2
        = [ClearAction.releaseBank, ClearAction.stopJoin "pose_classification_thread",
           ClearAction.stopJoin "audio_morphing"]) :=
  ⟨⟨by decide, by decide, by decide, by decide, by decide, by decide⟩,
    C8_amended_teardown ctlC8 0 1 0 1 ⟨0, true⟩ ⟨1, true⟩ (by decide) (by decide) (by decide)
      (by decide) (by decide) (by decide) (by decide) (by decide) (by decide) (by decide)
      (by decide)⟩

/-- Claim C9: enqueueing to a queue name that was never registered silently
drops the message — the state (registry included) is unchanged and no error
is raised — and dequeueing from such a name returns `None` instead of
raising. -/
theorem C9_unregistered_queue (tm : ThreadManager) (queue_name : String) (m : Msg)
    (h : tm.get_queue queue_name = none) :
    tm.enqueue_message queue_name m = tm ∧
    tm.dequeue_message queue_name = (tm, none) := by
  constructor
  · unfold ThreadManager.enqueue_message
    simp only [h]
  · unfold ThreadManager.dequeue_message
    simp only [h]

/-- Witness for C9 on the fresh thread manager and the morphing queue name. -/
theorem C9_unregistered_queue_witness :
    tmEmpty.get_queue "morphing_data" = none ∧
    (tmEmpty.enqueue_message "morphing_data" (Msg.intMsg 2) = tmEmpty ∧
      tmEmpty.dequeue_message "morphing_data" = (tmEmpty, none)) :=
  ⟨by decide, C9_unregistered_queue tmEmpty "morphing_data" (Msg.intMsg 2) (by decide)⟩

/-- Claim C10: for an event name absent from the registry, `set_event` and
`clear_event` operate on a fresh discarded `threading.Event`, leaving the
registry unchanged, and a subsequent `is_event_set` reads `false` — a set
issued before `create_event` is silently lost. -/
theorem C10_absent_event (em : EventManager) (event_name : String)
    (h : dictGet em.events event_name = none) :
    em.set_event event_name = em ∧
    em.clear_event event_name = em ∧
    (em.set_event event_name).is_event_set event_name = false := by
  have hs : em.set_event event_name = em := by
    unfold EventManager.set_event
    simp only [h]
  refine ⟨hs, ?_, ?_⟩
  · unfold EventManager.clear_event
    simp only [h]
  · rw [hs]
    unfold EventManager.is_event_set
    rw [h]
    rfl

/-- The empty event registry. -/
def emEmpty : EventManager := ⟨[]⟩

/-- Witness for C10 at the `"start_extraction"` event, which the controller
sets before ever creating it. -/
theorem C10_absent_event_witness :
    dictGet emEmpty.events "start_extraction" = none ∧
    (emEmpty.set_event "start_extraction" = emEmpty ∧
      emEmpty.clear_event "start_extraction" = emEmpty ∧
      (emEmpty.set_event "start_extraction").is_event_set "start_extraction" = false) :=
  ⟨by decide, C10_absent_event emEmpty "start_extraction" (by decide)⟩
